import Mathlib

/-!
Verification development for the Market-Order-Execution-Engine repository.

The TypeScript sources are shallowly embedded as executable Lean definitions:

* `src/dex/mockDexRouter.ts` — quote computation and venue routing, with the
  `Math.random()` draws made explicit parameters and JS numbers modelled as `ℚ`.
* `src/queue/orderWorker.ts` — the idempotent lifecycle worker
  (`processOrderOnce`, `runWithRetries`, `executeOrderJob`) as explicit state
  transformers over a `WorkerState` that records the active-order store, the
  per-order event logs, the bus publish log, the durable DB calls and the sleeps.
  A thrown JS error is modelled as `Except.error (message, stateAtThrow)`.
* `src/ws/orderSocket.ts` — the per-connection delivery pipeline (subscribe,
  backlog read, buffered-live flush, live forwarding) as a pure function of the
  backlog, buffered and live event lists.
* `src/services/orderService.ts` — the two event-bus implementations as state
  machines over an explicit operation list.
* `src/api/orders.ts` — the ordered collaborator calls of the submission path.
-/

/-! ## Data model (src/types.ts) -/

inductive OrderStatus where
  | pending
  | routing
  | building
  | submitted
  | confirmed
  | failed
deriving DecidableEq, Repr

inductive DexName where
  | raydium
  | meteora
deriving DecidableEq, Repr

structure Order where
  orderId : String
  tokenIn : String
  tokenOut : String
  amount : ℚ
  slippageBps : ℚ
  createdAtMs : Nat
deriving DecidableEq, Repr

/-- Embedding of the `OrderEvent` tagged union: a record with a `status` tag and
optional payload fields, matching the JS objects (absent fields are `none`). -/
structure OrderEvent where
  orderId : String
  status : OrderStatus
  tsMs : Nat
  dex : Option DexName := none
  executedPrice : Option ℚ := none
  txHash : Option String := none
  error : Option String := none
deriving DecidableEq, Repr

structure DexQuote where
  dex : DexName
  price : ℚ
  feeRate : ℚ
  effectivePrice : ℚ
deriving DecidableEq, Repr

structure RoutingDecision where
  raydium : DexQuote
  meteora : DexQuote
  chosen : DexQuote
deriving DecidableEq, Repr

structure SwapExecutionResult where
  dex : DexName
  executedPrice : ℚ
  txHash : String
deriving DecidableEq, Repr

/-! ## Mock DEX router (src/dex/mockDexRouter.ts)

JS numbers are modelled as `ℚ`; each `this.rand()` draw is an explicit
parameter.  `charCodeAt` is modelled by `Char.toNat` (all strings used for
token symbols are BMP strings, where the two agree). -/

def clamp (n lo hi : ℚ) : ℚ :=
  max lo (min hi n)

/-- Loop of `stableBasePrice`: `sum = (sum + seed.charCodeAt(i) * (i + 1)) % 10_000`. -/
def charCodeSum : List Char → Nat → Nat → Nat
  | [], _i, acc => acc
  | c :: cs, i, acc => charCodeSum cs (i + 1) ((acc + c.toNat * (i + 1)) % 10000)

def stableBasePrice (tokenIn tokenOut : String) : ℚ :=
  let seed := tokenIn ++ "→" ++ tokenOut
  let sum := charCodeSum seed.data 0 0
  0.75 + ((sum : ℚ) / 10000) * 0.5

/-- Embedding of `MockDexRouter.getQuote` (the `sleepFn` latency has no effect
on the returned quote and is dropped). -/
def getQuote (dex : DexName) (tokenIn tokenOut : String) (amount : ℚ) (rand : ℚ) : DexQuote :=
  let base := stableBasePrice tokenIn tokenOut
  let amountFactor := clamp (1 - amount * 0.00001) 0.9 1
  match dex with
  | .raydium =>
    let variance := 0.98 + rand * 0.04
    let price := base * variance * amountFactor
    let feeRate : ℚ := 0.003
    { dex := .raydium, price := price, feeRate := feeRate, effectivePrice := price * (1 - feeRate) }
  | .meteora =>
    let variance := 0.97 + rand * 0.05
    let price := base * variance * amountFactor
    let feeRate : ℚ := 0.002
    { dex := .meteora, price := price, feeRate := feeRate, effectivePrice := price * (1 - feeRate) }

/-- Embedding of `MockDexRouter.route`: both quotes are fetched (their random
draws are `randRaydium` and `randMeteora`) and the quote with the higher
`effectivePrice` is chosen, Raydium winning exact ties (`>=`). -/
def route (order : Order) (randRaydium randMeteora : ℚ) : RoutingDecision :=
  let raydium := getQuote .raydium order.tokenIn order.tokenOut order.amount randRaydium
  let meteora := getQuote .meteora order.tokenIn order.tokenOut order.amount randMeteora
  let chosen := if raydium.effectivePrice ≥ meteora.effectivePrice then raydium else meteora
  { raydium := raydium, meteora := meteora, chosen := chosen }

/-! ## Worker constants and backoff (src/queue/orderWorker.ts) -/

def ORDER_MAX_ATTEMPTS : Nat := 3

def ORDER_BACKOFF_BASE_MS : Nat := 1000

/-- Embedding of `computeExponentialBackoffMs`: `baseMs * 2 ** Math.max(0, attempt - 2)`
(truncated `Nat` subtraction is exactly `Math.max(0, attempt - 2)`). -/
def computeExponentialBackoffMs (attempt : Nat) (baseMs : Nat) : Nat :=
  baseMs * 2 ^ (attempt - 2)

/-! ## Worker state model

The collaborators touched by the worker are gathered in one explicit state:
the in-memory active-order store (`InMemoryActiveOrderStore` semantics from
src/services/orderService.ts: `appendEvent` pushes, `listEvents` copies, both
keyed by `orderId`), the bus publish log (the sequence of `publish` calls, in
order), the durable DB (`finalizeOrder` / `failOrder` call records) and the
sleeps performed.  TTL arguments have no effect in the in-memory store and are
not part of the state. -/

structure DbFinalizeRecord where
  orderId : String
  dex : DexName
  executedPrice : ℚ
  txHash : String
  updatedAtMs : Nat
deriving DecidableEq, Repr

structure DbFailRecord where
  orderId : String
  failureReason : String
  updatedAtMs : Nat
deriving DecidableEq, Repr

structure WorkerState where
  activeOrders : List (String × Order)
  eventLogs : List (String × List OrderEvent)
  busLog : List OrderEvent
  dbFinalized : List DbFinalizeRecord
  dbFailed : List DbFailRecord
  sleeps : List Nat
deriving DecidableEq, Repr

/-- `this.events.get(orderId) ?? []` of the in-memory store. -/
def lookupEvents (m : List (String × List OrderEvent)) (k : String) : List OrderEvent :=
  match m.find? (fun p => p.1 == k) with
  | some p => p.2
  | none => []

/-- `this.events.set(orderId, list)`.  The JS `Map` is modelled as a shadowing
association list: `set` prepends and `get` takes the first match, which is
observationally identical to `Map.get`/`Map.set` (the store is never
iterated). -/
def setEvents (m : List (String × List OrderEvent)) (k : String) (v : List OrderEvent) :
    List (String × List OrderEvent) :=
  (k, v) :: m

/-- `ActiveOrderStore.listEvents` on the worker state. -/
def listEvents (s : WorkerState) (orderId : String) : List OrderEvent :=
  lookupEvents s.eventLogs orderId

/-- `ActiveOrderStore.getActiveOrder` on the worker state. -/
def getActiveOrder (s : WorkerState) (orderId : String) : Option Order :=
  match s.activeOrders.find? (fun p => p.1 == orderId) with
  | some p => some p.2
  | none => none

/-- Embedding of the worker's `emitEvent` helper: append the event to the
store's log for its order, then publish it on the bus. -/
def emitEvent (s : WorkerState) (ev : OrderEvent) : WorkerState :=
  { s with
    eventLogs := setEvents s.eventLogs ev.orderId (lookupEvents s.eventLogs ev.orderId ++ [ev]),
    busLog := s.busLog ++ [ev] }

/-- Embedding of `lastStatus` from src/queue/orderWorker.ts. -/
def lastStatus (events : List OrderEvent) : Option OrderStatus :=
  match events.getLast? with
  | some e => some e.status
  | none => none

/-- Embedding of `hasStatus` from src/queue/orderWorker.ts. -/
def hasStatus (events : List OrderEvent) (st : OrderStatus) : Bool :=
  events.any (fun e => e.status == st)

/-- The router as seen by the worker: `route` and `executeSwap` may succeed or
throw (`Except.error message`).  `MockDexRouter` never throws, but the worker
must be correct for any substituted router (tests inject a failing one). -/
structure RouterModel where
  route : Order → Except String RoutingDecision
  executeSwap : DexName → Order → ℚ → Except String SwapExecutionResult

/-- Embedding of `processOrderOnce`.  `now` stands for `Date.now()` (the claims
under verification do not depend on timestamps, so one clock value is used).
A thrown error carries the state at the moment of the throw, so that the side
effects already performed are kept, exactly as in the JS code. -/
def processOrderOnce (r : RouterModel) (now : Nat) (order : Order) (s : WorkerState) :
    Except (String × WorkerState) WorkerState :=
  let orderId := order.orderId
  let events := listEvents s orderId
  if lastStatus events = some .confirmed ∨ lastStatus events = some .failed then .ok s
  else
    let s1 := if hasStatus events .routing then s
      else emitEvent s { orderId := orderId, status := .routing, tsMs := now }
    match r.route order with
    | .error e => .error (e, s1)
    | .ok decision =>
      let s2 := if hasStatus events .building then s1
        else emitEvent s1 { orderId := orderId, status := .building, tsMs := now }
      let s3 := { s2 with sleeps := s2.sleeps ++ [150] }
      let s4 := if hasStatus events .submitted then s3
        else emitEvent s3 { orderId := orderId, status := .submitted, tsMs := now }
      match r.executeSwap decision.chosen.dex order decision.chosen.price with
      | .error e => .error (e, s4)
      | .ok exec =>
        let s5 := { s4 with dbFinalized := s4.dbFinalized ++
          [{ orderId := orderId, dex := exec.dex, executedPrice := exec.executedPrice,
             txHash := exec.txHash, updatedAtMs := now }] }
        let afterEvents := listEvents s5 orderId
        let confirmedEvent : OrderEvent :=
          { orderId := orderId
            status := .confirmed
            tsMs := now
            dex := some exec.dex
            executedPrice := some exec.executedPrice
            txHash := some exec.txHash }
        let s6 := if hasStatus afterEvents .confirmed then s5 else emitEvent s5 confirmedEvent
        .ok s6

/-- Embedding of `runWithRetries`, generalized exactly as in the source over the
attempted action (`run`).  `attempt` is the 1-based loop counter and `fuel` the
number of attempts still allowed including the current one; the top-level call
uses `attempt = 1`, `fuel = maxAttempts`.  The backoff sleep between a
non-final failed attempt and the next one is recorded in the state. -/
def runWithRetries (baseBackoffMs : Nat)
    (run : Nat → WorkerState → Except (String × WorkerState) WorkerState) :
    Nat → Nat → WorkerState → Except (String × WorkerState) WorkerState
  | _attempt, 0, s => .ok s
  | attempt, fuel + 1, s =>
    match run attempt s with
    | .ok s' => .ok s'
    | .error (msg, s') =>
      if fuel = 0 then .error (msg, s')
      else
        let waitMs := computeExponentialBackoffMs (attempt + 1) baseBackoffMs
        runWithRetries baseBackoffMs run (attempt + 1) fuel { s' with sleeps := s'.sleeps ++ [waitMs] }

/-- Embedding of `executeOrderJob`: load the active order (throwing a not-found
error if absent), run the retry-orchestrated `processOrderOnce`, and on final
failure write the durable failure record, emit `failed` unless one is already
recorded, and re-raise the original error. -/
def executeOrderJob (r : RouterModel) (now : Nat) (orderId : String) (s : WorkerState) :
    Except (String × WorkerState) WorkerState :=
  match getActiveOrder s orderId with
  | none => .error ("Active order not found: " ++ orderId, s)
  | some order =>
    match runWithRetries ORDER_BACKOFF_BASE_MS
        (fun _attempt st => processOrderOnce r now order st) 1 ORDER_MAX_ATTEMPTS s with
    | .ok s' => .ok s'
    | .error (msg, s') =>
      let s2 := { s' with dbFailed := s'.dbFailed ++
        [{ orderId := orderId, failureReason := msg, updatedAtMs := now }] }
      let events := listEvents s2 orderId
      let s3 := if hasStatus events .failed then s2
        else emitEvent s2 { orderId := orderId, status := .failed, tsMs := now, error := some msg }
      .error (msg, s3)

/-! ## Lifecycle streaming gateway (src/ws/orderSocket.ts)

The per-connection pipeline is modelled as a pure function of three event
lists.  `backlog` is the store snapshot read after subscribing; `buffered` are
the live events that arrived on the subscription while `backlogFlushed` was
still false (in Node they all arrive while `sent` is empty, because the
backlog send loop and the buffer flush are synchronous); `live` are the events
arriving after the flush, forwarded in publish order.  Every delivery is
guarded by the per-connection `sent` set of already-sent statuses. -/

def statusRank : OrderStatus → Nat
  | .pending => 1
  | .routing => 2
  | .building => 3
  | .submitted => 4
  | .confirmed => 5
  | .failed => 6

/-- Stable insertion used by `sortByLifecycle`: the inserted event (which
precedes the list's events in the original order) goes before the first event
whose rank is not strictly smaller, so equal-rank events keep their original
order (stability of `Array.prototype.sort`). -/
def insertByRank (e : OrderEvent) : List OrderEvent → List OrderEvent
  | [] => [e]
  | x :: xs => if statusRank x.status < statusRank e.status
      then x :: insertByRank e xs
      else e :: x :: xs

/-- Model of `events.sort(sortByLifecycle)`: a stable sort by `statusRank`. -/
def sortByLifecycle : List OrderEvent → List OrderEvent
  | [] => []
  | x :: xs => insertByRank x (sortByLifecycle xs)

/-- Delivery loop with the `sent` set: each event whose status is not yet in
`sent` is sent and its status added; the rest are skipped.  Returns the
delivered events and the final `sent` set. -/
def drainEvents (sent : List OrderStatus) : List OrderEvent → List OrderEvent × List OrderStatus
  | [] => ([], sent)
  | e :: rest =>
    if e.status ∈ sent then drainEvents sent rest
    else
      let r := drainEvents (sent ++ [e.status]) rest
      (e :: r.1, r.2)

/-- Embedding of one connection's complete delivery sequence: sorted backlog,
then the sorted buffered live events, then further live events in arrival
order, all deduplicated through the shared `sent` set. -/
def deliverConnection (backlog buffered live : List OrderEvent) : List OrderEvent :=
  let d1 := drainEvents [] (sortByLifecycle backlog)
  let d2 := drainEvents d1.2 (sortByLifecycle buffered)
  let d3 := drainEvents d2.2 live
  d1.1 ++ d2.1 ++ d3.1

/-- The status sequences a subscriber may legitimately observe, per the
lifecycle invariant: truncations of
`pending, routing, building, submitted, confirmed` and the failed variants
`pending, routing, failed` / `pending, routing, building, submitted, failed`
(failure may also strike right after `pending`). -/
def canonicalSeqs : List (List OrderStatus) :=
  [ [],
    [.pending],
    [.pending, .routing],
    [.pending, .routing, .building],
    [.pending, .routing, .building, .submitted],
    [.pending, .routing, .building, .submitted, .confirmed],
    [.pending, .failed],
    [.pending, .routing, .failed],
    [.pending, .routing, .building, .submitted, .failed] ]

/-! ## Submission path (src/api/orders.ts)

The success path of `POST /api/orders/execute` performs, in program order:
`activeStore.putActiveOrder`, `db.insertOrder`, `queue.enqueue`, and then
`emitPending` (which appends the `pending` event to the store and publishes it
on the bus).  The order of these collaborator calls is the subject of claim C3,
so it is embedded as an explicit call trace. -/

inductive SubmitStep where
  | putActiveOrder
  | insertOrder
  | enqueueJob
  | appendPendingEvent
  | publishPendingEvent
deriving DecidableEq, Repr

/-- Collaborator calls of the validated submission path, in program order
(src/api/orders.ts, success branch; `emitPending` expanded into its
`appendEvent` and `publish` calls). -/
def submitOrderSteps : List SubmitStep :=
  [.putActiveOrder, .insertOrder, .enqueueJob, .appendPendingEvent, .publishPendingEvent]

/-! ## Shared concrete instances used by witnesses -/

def sampleOrder : Order :=
  { orderId := "order-1", tokenIn := "SOL", tokenOut := "USDC",
    amount := 10, slippageBps := 50, createdAtMs := 1 }

/-- A router whose `route` always throws, as injected by the failure tests. -/
def failingRouter : RouterModel :=
  { route := fun _ => .error "routing failed",
    executeSwap := fun _ _ _ => .error "swap failed" }

def emptyWorkerState : WorkerState :=
  { activeOrders := [], eventLogs := [], busLog := [], dbFinalized := [], dbFailed := [],
    sleeps := [] }

/-! ## Store lookup/update lemmas -/

lemma lookupEvents_setEvents (m : List (String × List OrderEvent)) (k : String)
    (v : List OrderEvent) (k' : String) :
    lookupEvents (setEvents m k v) k' = if k = k' then v else lookupEvents m k' := by
  by_cases h : k = k'
  · subst h
    simp [setEvents, lookupEvents, List.find?]
  · have hb : (k == k') = false := by simp [h]
    simp [setEvents, lookupEvents, List.find?, hb, h]

lemma listEvents_emitEvent (s : WorkerState) (ev : OrderEvent) (k : String) :
    listEvents (emitEvent s ev) k =
      if ev.orderId = k then listEvents s k ++ [ev] else listEvents s k := by
  by_cases h : ev.orderId = k <;>
    simp [emitEvent, listEvents, lookupEvents_setEvents, h]

lemma busLog_emitEvent (s : WorkerState) (ev : OrderEvent) :
    (emitEvent s ev).busLog = s.busLog ++ [ev] := rfl

/-! ## C8 — effective price and fee rates -/

/-- C8: for every quote returned by either venue and every token pair, amount
and random draw, `effectivePrice = price * (1 - feeRate)` exactly, where
`feeRate` is 0.003 for Raydium and 0.002 for Meteora. -/
theorem getQuote_fee_model (tokenIn tokenOut : String) (amount rand : ℚ) :
    (∀ dex, (getQuote dex tokenIn tokenOut amount rand).effectivePrice =
      (getQuote dex tokenIn tokenOut amount rand).price *
        (1 - (getQuote dex tokenIn tokenOut amount rand).feeRate)) ∧
    (getQuote .raydium tokenIn tokenOut amount rand).feeRate = 0.003 ∧
    (getQuote .meteora tokenIn tokenOut amount rand).feeRate = 0.002 := by
  refine ⟨fun dex => ?_, rfl, rfl⟩
  cases dex <;> rfl

/-! ## C6 — routing picks the higher effective price -/

/-- C6: `route` returns the decision whose chosen quote is the venue quote with
the numerically higher `effectivePrice`; on an exact tie the first venue
compared (Raydium) is chosen. -/
theorem route_chooses_best (order : Order) (randRaydium randMeteora : ℚ) :
    ((route order randRaydium randMeteora).chosen = (route order randRaydium randMeteora).raydium ∨
      (route order randRaydium randMeteora).chosen = (route order randRaydium randMeteora).meteora) ∧
    (route order randRaydium randMeteora).chosen.effectivePrice =
      max (route order randRaydium randMeteora).raydium.effectivePrice
        (route order randRaydium randMeteora).meteora.effectivePrice ∧
    ((route order randRaydium randMeteora).raydium.effectivePrice =
        (route order randRaydium randMeteora).meteora.effectivePrice →
      (route order randRaydium randMeteora).chosen = (route order randRaydium randMeteora).raydium) := by
  by_cases h : (getQuote .raydium order.tokenIn order.tokenOut order.amount randRaydium).effectivePrice ≥
      (getQuote .meteora order.tokenIn order.tokenOut order.amount randMeteora).effectivePrice
  · have hch : (route order randRaydium randMeteora).chosen =
        getQuote .raydium order.tokenIn order.tokenOut order.amount randRaydium := by
      simp [route, h]
    refine ⟨Or.inl hch, ?_, fun _ => hch⟩
    rw [hch]
    exact (max_eq_left h).symm
  · have hch : (route order randRaydium randMeteora).chosen =
        getQuote .meteora order.tokenIn order.tokenOut order.amount randMeteora := by
      simp [route, h]
    refine ⟨Or.inr hch, ?_, fun heq => absurd (ge_of_eq heq) h⟩
    rw [hch]
    exact (max_eq_right (le_of_not_le h)).symm

/-- Witness for the tie case of C6: with `rand = 0` for Raydium and
`rand = 90/499` for Meteora the two effective prices coincide exactly, and the
chosen quote is Raydium's. -/
theorem route_chooses_best_witness :
    (route sampleOrder 0 (90/499)).raydium.effectivePrice =
      (route sampleOrder 0 (90/499)).meteora.effectivePrice ∧
    (route sampleOrder 0 (90/499)).chosen = (route sampleOrder 0 (90/499)).raydium := by
  have h : (route sampleOrder 0 (90/499)).raydium.effectivePrice =
      (route sampleOrder 0 (90/499)).meteora.effectivePrice := by
    show (getQuote .raydium "SOL" "USDC" 10 0).effectivePrice =
      (getQuote .meteora "SOL" "USDC" 10 (90/499)).effectivePrice
    simp only [getQuote]
    norm_num
    ring_nf
  exact ⟨h, (route_chooses_best sampleOrder 0 (90/499)).2.2 h⟩

/-! ## C7 — exponential backoff schedule -/

lemma runWithRetries_allFail (b : Nat) (msg : String) :
    ∀ (fuel k : Nat) (s : WorkerState),
      runWithRetries b (fun _attempt st => .error (msg, st)) (k + 1) (fuel + 1) s =
        .error (msg, { s with sleeps := s.sleeps ++ (List.range fuel).map fun i => b * 2 ^ (k + i) }) := by
  intro fuel
  induction fuel with
  | zero => intro k s; simp [runWithRetries]
  | succ n ih =>
    intro k s
    have hstep : runWithRetries b (fun _attempt st => .error (msg, st)) (k + 1) (n + 1 + 1) s =
        runWithRetries b (fun _attempt st => .error (msg, st)) (k + 1 + 1) (n + 1)
          { s with sleeps := s.sleeps ++ [computeExponentialBackoffMs (k + 1 + 1) b] } := by
      simp [runWithRetries]
    rw [hstep, ih (k + 1)]
    have harith : computeExponentialBackoffMs (k + 1 + 1) b = b * 2 ^ k := by
      simp [computeExponentialBackoffMs]
    rw [harith]
    have hrange : (List.range (n + 1)).map (fun i => b * 2 ^ (k + i)) =
        b * 2 ^ k :: (List.range n).map (fun i => b * 2 ^ (k + 1 + i)) := by
      rw [List.range_succ_eq_map, List.map_cons, List.map_map]
      simp only [Nat.add_zero]
      congr 1
      apply List.map_congr_left
      intro i _
      simp only [Function.comp_apply]
      have hx : k + (i + 1) = k + 1 + i := by omega
      rw [hx]
    rw [hrange]
    simp

/-- C7: `computeExponentialBackoffMs` makes the wait before attempt 2 equal to
the base delay `b`, before attempt 3 equal to `2b`, before attempt 4 equal to
`4b`, doubling per attempt; and `runWithRetries` (here with every attempt
failing) sleeps exactly the schedule `b, 2b, 4b, …` between consecutive
attempts, performing `maxAttempts - 1` sleeps in total — none after the final
attempt. -/
theorem runWithRetries_backoff_schedule (b : Nat) :
    computeExponentialBackoffMs 2 b = b ∧
    computeExponentialBackoffMs 3 b = 2 * b ∧
    computeExponentialBackoffMs 4 b = 4 * b ∧
    (∀ n, computeExponentialBackoffMs (n + 3) b = 2 * computeExponentialBackoffMs (n + 2) b) ∧
    (∀ (m : Nat) (msg : String) (s : WorkerState),
      runWithRetries b (fun _attempt st => .error (msg, st)) 1 (m + 1) s =
        .error (msg, { s with sleeps := s.sleeps ++ (List.range m).map fun i => b * 2 ^ i })) := by
  refine ⟨by simp [computeExponentialBackoffMs], by simp [computeExponentialBackoffMs]; ring,
    by simp [computeExponentialBackoffMs]; ring,
    fun n => by simp [computeExponentialBackoffMs, pow_succ]; ring, fun m msg s => ?_⟩
  have h := runWithRetries_allFail b msg m 0 s
  simpa using h

/-! ## C3 — order of the submission path's collaborator calls -/

/-- C3 counterexample: it is false that the submission path appends and
publishes the `pending` event before dispatching the job — in
src/api/orders.ts the `queue.enqueue` call comes first. -/
theorem submit_pending_before_dispatch_false :
    ¬ (List.indexOf SubmitStep.appendPendingEvent submitOrderSteps <
        List.indexOf SubmitStep.enqueueJob submitOrderSteps ∧
       List.indexOf SubmitStep.publishPendingEvent submitOrderSteps <
        List.indexOf SubmitStep.enqueueJob submitOrderSteps) := by
  decide

/-- C3 amended: the validated submission path stores the order, inserts the
durable record, dispatches the job keyed by the order identifier, and only
then appends the `pending` event to the active-order store and publishes it to
the event bus (append before publish). -/
theorem submit_dispatch_then_pending :
    List.indexOf SubmitStep.putActiveOrder submitOrderSteps <
      List.indexOf SubmitStep.insertOrder submitOrderSteps ∧
    List.indexOf SubmitStep.insertOrder submitOrderSteps <
      List.indexOf SubmitStep.enqueueJob submitOrderSteps ∧
    List.indexOf SubmitStep.enqueueJob submitOrderSteps <
      List.indexOf SubmitStep.appendPendingEvent submitOrderSteps ∧
    List.indexOf SubmitStep.appendPendingEvent submitOrderSteps <
      List.indexOf SubmitStep.publishPendingEvent submitOrderSteps ∧
    SubmitStep.appendPendingEvent ∈ submitOrderSteps ∧
    SubmitStep.enqueueJob ∈ submitOrderSteps := by
  decide

/-! ## C5 — terminal orders are a no-op for processOrderOnce -/

/-- C5: when the last recorded status of an order's event log is `confirmed` or
`failed`, `processOrderOnce` returns immediately with the state unchanged — no
event is appended or published, and the durable record is untouched. -/
theorem processOrderOnce_terminal_noop (r : RouterModel) (now : Nat) (order : Order)
    (s : WorkerState)
    (h : lastStatus (listEvents s order.orderId) = some .confirmed ∨
         lastStatus (listEvents s order.orderId) = some .failed) :
    processOrderOnce r now order s = .ok s := by
  rcases h with h | h <;> simp [processOrderOnce, h]

def confirmedLogState : WorkerState :=
  { emptyWorkerState with
    eventLogs := [("order-1", [{ orderId := "order-1", status := .confirmed, tsMs := 5 }])] }

/-- Witness for C5 at a concrete state whose log ends in `confirmed`. -/
theorem processOrderOnce_terminal_noop_witness :
    (lastStatus (listEvents confirmedLogState sampleOrder.orderId) = some .confirmed ∨
     lastStatus (listEvents confirmedLogState sampleOrder.orderId) = some .failed) ∧
    processOrderOnce failingRouter 7 sampleOrder confirmedLogState = .ok confirmedLogState := by
  have h : lastStatus (listEvents confirmedLogState sampleOrder.orderId) =
      some OrderStatus.confirmed := by decide
  exact ⟨Or.inl h, processOrderOnce_terminal_noop failingRouter 7 sampleOrder confirmedLogState
    (Or.inl h)⟩

/-! ## C10 — missing active order fails fast with no side effect -/

/-- C10: when the active-order store holds no order for the identifier,
`executeOrderJob` throws the not-found error before the retry loop, returning
the state completely unchanged: nothing is appended, published, finalized or
failed. -/
theorem executeOrderJob_not_found (r : RouterModel) (now : Nat) (orderId : String)
    (s : WorkerState) (h : getActiveOrder s orderId = none) :
    executeOrderJob r now orderId s = .error ("Active order not found: " ++ orderId, s) := by
  simp [executeOrderJob, h]

/-- Witness for C10 on the empty store. -/
theorem executeOrderJob_not_found_witness :
    getActiveOrder emptyWorkerState "missing" = none ∧
    executeOrderJob failingRouter 0 "missing" emptyWorkerState =
      .error ("Active order not found: " ++ "missing", emptyWorkerState) := by
  have h : getActiveOrder emptyWorkerState "missing" = none := rfl
  exact ⟨h, executeOrderJob_not_found failingRouter 0 "missing" emptyWorkerState h⟩

/-! ## C2 — resumption never re-emits recorded statuses -/

/-- State carried by a worker result, whether it returned or threw. -/
def resultState : Except (String × WorkerState) WorkerState → WorkerState
  | .ok s => s
  | .error (_, s) => s

lemma hasStatus_append (a b : List OrderEvent) (st : OrderStatus) :
    hasStatus (a ++ b) st = (hasStatus a st || hasStatus b st) :=
  List.any_append

/-- Membership in the list of events a guarded emission publishes: the guard
must have been false and the event is the guarded one. -/
lemma guardListCases (g : Bool) (x ev : OrderEvent)
    (h : ev ∈ (if g = true then ([] : List OrderEvent) else [x])) : g = false ∧ ev = x := by
  cases g <;> simp_all

/-- Every event that one `processOrderOnce` invocation publishes (whether the
attempt returns or throws) has a status that was not present in the order's
event log when the invocation started. -/
lemma processOrderOnce_no_reemission (r : RouterModel) (now : Nat) (order : Order)
    (s : WorkerState) :
    ∀ ev ∈ (resultState (processOrderOnce r now order s)).busLog.drop s.busLog.length,
      hasStatus (listEvents s order.orderId) ev.status = false := by
  intro ev hev
  by_cases hterm : lastStatus (listEvents s order.orderId) = some OrderStatus.confirmed ∨
      lastStatus (listEvents s order.orderId) = some OrderStatus.failed
  · simp [processOrderOnce, hterm, resultState, List.drop_length] at hev
  · simp only [processOrderOnce] at hev
    rw [if_neg hterm] at hev
    set events := listEvents s order.orderId with hevents
    set rEv : OrderEvent := { orderId := order.orderId, status := OrderStatus.routing, tsMs := now }
      with hrEv
    set s1 := if hasStatus events OrderStatus.routing = true then s else emitEvent s rEv with hs1
    have hbus1 : s1.busLog = s.busLog ++
        (if hasStatus events OrderStatus.routing = true then [] else [rEv]) := by
      rw [hs1]; split <;> simp [busLog_emitEvent]
    have hlog1 : listEvents s1 order.orderId = events ++
        (if hasStatus events OrderStatus.routing = true then [] else [rEv]) := by
      rw [hs1]; split <;> simp [listEvents_emitEvent, hevents, hrEv]
    rcases hroute : r.route order with e | decision
    · simp only [hroute] at hev
      simp only [resultState] at hev
      rw [hbus1] at hev
      rw [List.drop_left] at hev
      obtain ⟨hg, rfl⟩ := guardListCases _ _ _ hev
      simpa [hrEv] using hg
    · simp only [hroute] at hev
      set bEv : OrderEvent :=
        { orderId := order.orderId, status := OrderStatus.building, tsMs := now } with hbEv
      set s2 := if hasStatus events OrderStatus.building = true then s1 else emitEvent s1 bEv
        with hs2
      have hbus2 : s2.busLog = s.busLog ++
          (if hasStatus events OrderStatus.routing = true then [] else [rEv]) ++
          (if hasStatus events OrderStatus.building = true then [] else [bEv]) := by
        rw [hs2]; split <;> simp [busLog_emitEvent, hbus1]
      have hlog2 : listEvents s2 order.orderId = events ++
          (if hasStatus events OrderStatus.routing = true then [] else [rEv]) ++
          (if hasStatus events OrderStatus.building = true then [] else [bEv]) := by
        rw [hs2]; split <;> simp [listEvents_emitEvent, hlog1, hbEv]
      set s3 := { s2 with sleeps := s2.sleeps ++ [150] } with hs3
      have hbus3 : s3.busLog = s2.busLog := by rw [hs3]
      have hlog3 : listEvents s3 order.orderId = listEvents s2 order.orderId := by rw [hs3]; rfl
      set sEv : OrderEvent :=
        { orderId := order.orderId, status := OrderStatus.submitted, tsMs := now } with hsEv
      set s4 := if hasStatus events OrderStatus.submitted = true then s3 else emitEvent s3 sEv
        with hs4
      have hbus4 : s4.busLog = s.busLog ++
          (if hasStatus events OrderStatus.routing = true then [] else [rEv]) ++
          (if hasStatus events OrderStatus.building = true then [] else [bEv]) ++
          (if hasStatus events OrderStatus.submitted = true then [] else [sEv]) := by
        rw [hs4]; split <;> simp [busLog_emitEvent, hbus3, hbus2]
      have hlog4 : listEvents s4 order.orderId = events ++
          (if hasStatus events OrderStatus.routing = true then [] else [rEv]) ++
          (if hasStatus events OrderStatus.building = true then [] else [bEv]) ++
          (if hasStatus events OrderStatus.submitted = true then [] else [sEv]) := by
        rw [hs4]; split <;> simp [listEvents_emitEvent, hlog3, hlog2, hsEv]
      rcases hswap : r.executeSwap decision.chosen.dex order decision.chosen.price with e2 | exec
      · simp only [hswap] at hev
        simp only [resultState] at hev
        rw [hbus4] at hev
        simp only [List.append_assoc] at hev
        rw [List.drop_left] at hev
        rcases List.mem_append.mp hev with h | h
        · obtain ⟨hg, rfl⟩ := guardListCases _ _ _ h
          simpa [hrEv] using hg
        · rcases List.mem_append.mp h with h | h
          · obtain ⟨hg, rfl⟩ := guardListCases _ _ _ h
            simpa [hbEv] using hg
          · obtain ⟨hg, rfl⟩ := guardListCases _ _ _ h
            simpa [hsEv] using hg
      · simp only [hswap] at hev
        simp only [resultState] at hev
        set s5 := { s4 with dbFinalized := s4.dbFinalized ++ [DbFinalizeRecord.mk order.orderId exec.dex exec.executedPrice exec.txHash now] } with hs5
        have hbus5 : s5.busLog = s4.busLog := by rw [hs5]
        have hlog5 : listEvents s5 order.orderId = listEvents s4 order.orderId := by rw [hs5]; rfl
        set cEv : OrderEvent := OrderEvent.mk order.orderId OrderStatus.confirmed now (some exec.dex) (some exec.executedPrice) (some exec.txHash) none with hcEv
        set s6 := if hasStatus (listEvents s5 order.orderId) OrderStatus.confirmed = true then s5
          else emitEvent s5 cEv with hs6
        have hbus6 : s6.busLog = s.busLog ++
            (if hasStatus events OrderStatus.routing = true then [] else [rEv]) ++
            (if hasStatus events OrderStatus.building = true then [] else [bEv]) ++
            (if hasStatus events OrderStatus.submitted = true then [] else [sEv]) ++
            (if hasStatus (listEvents s5 order.orderId) OrderStatus.confirmed = true then []
              else [cEv]) := by
          rw [hs6]; split <;> simp [busLog_emitEvent, hbus5, hbus4]
        rw [hbus6] at hev
        simp only [List.append_assoc] at hev
        rw [List.drop_left] at hev
        rcases List.mem_append.mp hev with h | h
        · obtain ⟨hg, rfl⟩ := guardListCases _ _ _ h
          simpa [hrEv] using hg
        · rcases List.mem_append.mp h with h | h
          · obtain ⟨hg, rfl⟩ := guardListCases _ _ _ h
            simpa [hbEv] using hg
          · rcases List.mem_append.mp h with h | h
            · obtain ⟨hg, rfl⟩ := guardListCases _ _ _ h
              simpa [hsEv] using hg
            · obtain ⟨hg, rfl⟩ := guardListCases _ _ _ h
              rw [hlog5, hlog4] at hg
              cases hx : hasStatus events OrderStatus.confirmed with
              | true => simp [hasStatus_append, hx] at hg
              | false => simpa [hcEv] using hx

lemma hasStatus_singleton (e : OrderEvent) (st : OrderStatus) :
    hasStatus [e] st = (e.status == st) := by
  simp [hasStatus]

lemma hasStatus_cons (e : OrderEvent) (l : List OrderEvent) (st : OrderStatus) :
    hasStatus (e :: l) st = (e.status == st || hasStatus l st) := by
  simp [hasStatus]

lemma hasStatus_nil (st : OrderStatus) : hasStatus [] st = false := rfl

lemma listEvents_withSleeps (s : WorkerState) (l : List Nat) (k : String) :
    listEvents { s with sleeps := l } k = listEvents s k := rfl

lemma listEvents_withDbFinalized (s : WorkerState) (l : List DbFinalizeRecord) (k : String) :
    listEvents { s with dbFinalized := l } k = listEvents s k := rfl

lemma listEvents_withDbFailed (s : WorkerState) (l : List DbFailRecord) (k : String) :
    listEvents { s with dbFailed := l } k = listEvents s k := rfl

lemma busLog_withSleeps (s : WorkerState) (l : List Nat) :
    ({ s with sleeps := l } : WorkerState).busLog = s.busLog := rfl

lemma busLog_withDbFinalized (s : WorkerState) (l : List DbFinalizeRecord) :
    ({ s with dbFinalized := l } : WorkerState).busLog = s.busLog := rfl

lemma busLog_withDbFailed (s : WorkerState) (l : List DbFailRecord) :
    ({ s with dbFailed := l } : WorkerState).busLog = s.busLog := rfl

/-- C2: an attempt resumed over an event log that already holds statuses emits
only the statuses not yet present.  In particular from the log
`[pending, routing]` a successful attempt emits exactly `building`,
`submitted`, `confirmed` in that order (appended to both the store log and the
bus), and in general every published event's status was absent from the log
the attempt started from — `pending`/`routing` are never re-emitted. -/
theorem processOrderOnce_resumes_partial_log
    (r : RouterModel) (now : Nat) (order : Order) (s : WorkerState)
    (decision : RoutingDecision) (exec : SwapExecutionResult) (e1 e2 : OrderEvent)
    (hroute : r.route order = .ok decision)
    (hswap : r.executeSwap decision.chosen.dex order decision.chosen.price = .ok exec)
    (hlog : listEvents s order.orderId = [e1, e2])
    (h1 : e1.status = .pending) (h2 : e2.status = .routing) :
    (∃ s', processOrderOnce r now order s = .ok s' ∧
      s'.busLog = s.busLog ++
        [OrderEvent.mk order.orderId .building now none none none none,
         OrderEvent.mk order.orderId .submitted now none none none none,
         OrderEvent.mk order.orderId .confirmed now (some exec.dex) (some exec.executedPrice) (some exec.txHash) none] ∧
      listEvents s' order.orderId = [e1, e2] ++
        [OrderEvent.mk order.orderId .building now none none none none,
         OrderEvent.mk order.orderId .submitted now none none none none,
         OrderEvent.mk order.orderId .confirmed now (some exec.dex) (some exec.executedPrice) (some exec.txHash) none]) ∧
    (∀ (r' : RouterModel) (now' : Nat) (order' : Order) (st : WorkerState),
      ∀ ev ∈ (resultState (processOrderOnce r' now' order' st)).busLog.drop st.busLog.length,
        hasStatus (listEvents st order'.orderId) ev.status = false) := by
  have hlast : lastStatus [e1, e2] = some OrderStatus.routing := by
    simp [lastStatus, h2]
  have hr : hasStatus [e1, e2] OrderStatus.routing = true := by
    simp [hasStatus]
    exact Or.inr (by simp [h2])
  have hb : hasStatus [e1, e2] OrderStatus.building = false := by
    simp [hasStatus, h1, h2]
  have hsub : hasStatus [e1, e2] OrderStatus.submitted = false := by
    simp [hasStatus, h1, h2]
  have hconf : hasStatus [e1, e2] OrderStatus.confirmed = false := by
    simp [hasStatus, h1, h2]
  have hlog' : lookupEvents s.eventLogs order.orderId = [e1, e2] := hlog
  refine ⟨⟨resultState (processOrderOnce r now order s), ?_, ?_, ?_⟩,
    fun r' now' order' st => processOrderOnce_no_reemission r' now' order' st⟩
  · simp [processOrderOnce, emitEvent, listEvents, resultState, hroute, hswap,
      lookupEvents_setEvents, hlog', hlast, hr, hb, hsub, hconf, hasStatus_append,
      hasStatus_singleton, hasStatus_cons, hasStatus_nil, h1, h2]
  · simp [processOrderOnce, emitEvent, listEvents, resultState, hroute, hswap,
      lookupEvents_setEvents, hlog', hlast, hr, hb, hsub, hconf, hasStatus_append,
      hasStatus_singleton, hasStatus_cons, hasStatus_nil, h1, h2]
  · simp [processOrderOnce, emitEvent, listEvents, resultState, hroute, hswap,
      lookupEvents_setEvents, hlog', hlast, hr, hb, hsub, hconf, hasStatus_append,
      hasStatus_singleton, hasStatus_cons, hasStatus_nil, h1, h2]

def pendingSampleEvent : OrderEvent := { orderId := "order-1", status := .pending, tsMs := 1 }

def routingSampleEvent : OrderEvent := { orderId := "order-1", status := .routing, tsMs := 2 }

/-- State left by a prior partial attempt: the log holds `pending, routing`. -/
def partialLogState : WorkerState :=
  { emptyWorkerState with eventLogs := [("order-1", [pendingSampleEvent, routingSampleEvent])] }

def stubRaydiumQuote : DexQuote := { dex := .raydium, price := 2, feeRate := 0, effectivePrice := 2 }

def stubDecision : RoutingDecision :=
  { raydium := stubRaydiumQuote, meteora := { stubRaydiumQuote with dex := .meteora },
    chosen := stubRaydiumQuote }

def stubExec : SwapExecutionResult := { dex := .raydium, executedPrice := 2, txHash := "mocktx_a" }

/-- A router forced to succeed deterministically, as in the success-path test. -/
def succeedingRouter : RouterModel :=
  { route := fun _ => .ok stubDecision, executeSwap := fun _ _ _ => .ok stubExec }

/-- Witness for C2: resuming from the concrete `[pending, routing]` log with a
deterministically succeeding router emits exactly `building, submitted,
confirmed`. -/
theorem processOrderOnce_resumes_partial_log_witness :
    succeedingRouter.route sampleOrder = .ok stubDecision ∧
    succeedingRouter.executeSwap stubDecision.chosen.dex sampleOrder stubDecision.chosen.price =
      .ok stubExec ∧
    listEvents partialLogState sampleOrder.orderId = [pendingSampleEvent, routingSampleEvent] ∧
    pendingSampleEvent.status = .pending ∧
    routingSampleEvent.status = .routing ∧
    ((∃ s', processOrderOnce succeedingRouter 9 sampleOrder partialLogState = .ok s' ∧
      s'.busLog = partialLogState.busLog ++
        [OrderEvent.mk sampleOrder.orderId .building 9 none none none none,
         OrderEvent.mk sampleOrder.orderId .submitted 9 none none none none,
         OrderEvent.mk sampleOrder.orderId .confirmed 9 (some stubExec.dex) (some stubExec.executedPrice) (some stubExec.txHash) none] ∧
      listEvents s' sampleOrder.orderId = [pendingSampleEvent, routingSampleEvent] ++
        [OrderEvent.mk sampleOrder.orderId .building 9 none none none none,
         OrderEvent.mk sampleOrder.orderId .submitted 9 none none none none,
         OrderEvent.mk sampleOrder.orderId .confirmed 9 (some stubExec.dex) (some stubExec.executedPrice) (some stubExec.txHash) none]) ∧
    (∀ (r' : RouterModel) (now' : Nat) (order' : Order) (st : WorkerState),
      ∀ ev ∈ (resultState (processOrderOnce r' now' order' st)).busLog.drop st.busLog.length,
        hasStatus (listEvents st order'.orderId) ev.status = false)) := by
  exact ⟨rfl, rfl, rfl, rfl, rfl,
    processOrderOnce_resumes_partial_log succeedingRouter 9 sampleOrder partialLogState
      stubDecision stubExec pendingSampleEvent routingSampleEvent rfl rfl rfl rfl rfl⟩

/-! ## C4 — terminal failure: durable record, single failed event, re-raise -/

lemma dbFailed_emitEvent (s : WorkerState) (ev : OrderEvent) :
    (emitEvent s ev).dbFailed = s.dbFailed := rfl

/-- C4: when the retry-orchestrated attempts are exhausted (cap
`ORDER_MAX_ATTEMPTS = 3`) and the loop surfaces error `msg`, `executeOrderJob`
writes the durable failure record with `failureReason = msg`, emits a `failed`
event only if none is recorded (so the log holds exactly one afterwards), and
re-raises the original error. -/
theorem executeOrderJob_terminal_failure
    (r : RouterModel) (now : Nat) (orderId : String) (s : WorkerState) (order : Order)
    (msg : String) (sFail : WorkerState)
    (hload : getActiveOrder s orderId = some order)
    (hrun : runWithRetries ORDER_BACKOFF_BASE_MS
        (fun _attempt st => processOrderOnce r now order st) 1 ORDER_MAX_ATTEMPTS s =
      .error (msg, sFail)) :
    ∃ sEnd, executeOrderJob r now orderId s = .error (msg, sEnd) ∧
      sEnd.dbFailed = sFail.dbFailed ++ [DbFailRecord.mk orderId msg now] ∧
      (hasStatus (listEvents sFail orderId) .failed = true →
        listEvents sEnd orderId = listEvents sFail orderId) ∧
      (hasStatus (listEvents sFail orderId) .failed = false →
        listEvents sEnd orderId = listEvents sFail orderId ++
          [OrderEvent.mk orderId .failed now none none none (some msg)]) ∧
      (listEvents sEnd orderId).countP (fun e => e.status == .failed) =
        max 1 ((listEvents sFail orderId).countP (fun e => e.status == .failed)) := by
  simp only [executeOrderJob, hload, hrun]
  simp only [listEvents_withDbFailed]
  by_cases hfail : hasStatus (listEvents sFail orderId) OrderStatus.failed = true
  · rw [if_pos hfail]
    refine ⟨_, rfl, rfl, fun _ => rfl, fun hcontra => ?_, ?_⟩
    · rw [hfail] at hcontra; cases hcontra
    · have hpos : 0 < (listEvents sFail orderId).countP (fun e => e.status == .failed) := by
        rcases List.any_eq_true.mp hfail with ⟨e, he, hpe⟩
        exact List.countP_pos.mpr ⟨e, he, hpe⟩
      have hmax : max 1 ((listEvents sFail orderId).countP (fun e => e.status == .failed)) =
          (listEvents sFail orderId).countP (fun e => e.status == .failed) := by omega
      rw [hmax, listEvents_withDbFailed]
  · have hfail' : hasStatus (listEvents sFail orderId) OrderStatus.failed = false := by
      simpa using hfail
    rw [if_neg hfail]
    have hlogEnd : listEvents (emitEvent { sFail with dbFailed := sFail.dbFailed ++
        [DbFailRecord.mk orderId msg now] } (OrderEvent.mk orderId .failed now none none none (some msg))) orderId =
        listEvents sFail orderId ++ [OrderEvent.mk orderId .failed now none none none (some msg)] := by
      rw [listEvents_emitEvent]
      simp [listEvents_withDbFailed]
    refine ⟨_, rfl, rfl, fun hcontra => ?_, fun _ => hlogEnd, ?_⟩
    · rw [hfail'] at hcontra; cases hcontra
    · rw [hlogEnd]
      have hz : (listEvents sFail orderId).countP (fun e => e.status == .failed) = 0 := by
        rw [List.countP_eq_zero]
        intro e he
        have := List.any_eq_false.mp hfail' e he
        simpa using this
      rw [List.countP_append, hz]
      simp

def activeOrderState : WorkerState :=
  { emptyWorkerState with activeOrders := [("order-1", sampleOrder)] }

/-- State after three failing attempts of the always-throwing router: the
first attempt emitted `routing` before `route` threw, the two backoff sleeps
of 1000 ms and 2000 ms were taken, and the error surfaced. -/
def routingOnlyFailState : WorkerState :=
  { activeOrders := [("order-1", sampleOrder)],
    eventLogs := [("order-1", [OrderEvent.mk "order-1" .routing 9 none none none none])],
    busLog := [OrderEvent.mk "order-1" .routing 9 none none none none],
    dbFinalized := [], dbFailed := [], sleeps := [1000, 2000] }

/-- Witness for C4: the always-throwing router exhausts the 3 attempts; the
durable failure record carries the thrown message and exactly one `failed`
event ends the log. -/
theorem executeOrderJob_terminal_failure_witness :
    getActiveOrder activeOrderState "order-1" = some sampleOrder ∧
    runWithRetries ORDER_BACKOFF_BASE_MS
      (fun _attempt st => processOrderOnce failingRouter 9 sampleOrder st) 1 ORDER_MAX_ATTEMPTS
      activeOrderState = .error ("routing failed", routingOnlyFailState) ∧
    (∃ sEnd, executeOrderJob failingRouter 9 "order-1" activeOrderState =
        .error ("routing failed", sEnd) ∧
      sEnd.dbFailed = routingOnlyFailState.dbFailed ++
        [DbFailRecord.mk "order-1" "routing failed" 9] ∧
      (hasStatus (listEvents routingOnlyFailState "order-1") .failed = true →
        listEvents sEnd "order-1" = listEvents routingOnlyFailState "order-1") ∧
      (hasStatus (listEvents routingOnlyFailState "order-1") .failed = false →
        listEvents sEnd "order-1" = listEvents routingOnlyFailState "order-1" ++
          [OrderEvent.mk "order-1" .failed 9 none none none (some "routing failed")]) ∧
      (listEvents sEnd "order-1").countP (fun e => e.status == .failed) =
        max 1 ((listEvents routingOnlyFailState "order-1").countP
          (fun e => e.status == .failed))) := by
  have h1 : getActiveOrder activeOrderState "order-1" = some sampleOrder := rfl
  have h2 : runWithRetries ORDER_BACKOFF_BASE_MS
      (fun _attempt st => processOrderOnce failingRouter 9 sampleOrder st) 1 ORDER_MAX_ATTEMPTS
      activeOrderState = .error ("routing failed", routingOnlyFailState) := by
    rfl
  exact ⟨h1, h2, executeOrderJob_terminal_failure failingRouter 9 "order-1" activeOrderState
    sampleOrder "routing failed" routingOnlyFailState h1 h2⟩

/-! ## C1 — per-connection delivery: canonical order, no duplicates -/

lemma insertByRank_front (e : OrderEvent) (l : List OrderEvent)
    (h : ∀ x ∈ l, statusRank e.status ≤ statusRank x.status) : insertByRank e l = e :: l := by
  cases l with
  | nil => rfl
  | cons x xs =>
    have hx := h x (by simp)
    simp [insertByRank, Nat.not_lt.mpr hx]

/-- A list already sorted by lifecycle rank is left unchanged by the sort. -/
lemma sortByLifecycle_eq_self (l : List OrderEvent)
    (h : l.Pairwise (fun a b => statusRank a.status ≤ statusRank b.status)) :
    sortByLifecycle l = l := by
  induction l with
  | nil => rfl
  | cons e rest ih =>
    obtain ⟨he, hrest⟩ := List.pairwise_cons.mp h
    rw [sortByLifecycle, ih hrest, insertByRank_front e rest he]

lemma drainEvents_append (sent : List OrderStatus) (a b : List OrderEvent) :
    drainEvents sent (a ++ b) =
      ((drainEvents sent a).1 ++ (drainEvents (drainEvents sent a).2 b).1,
       (drainEvents (drainEvents sent a).2 b).2) := by
  induction a generalizing sent with
  | nil => simp [drainEvents]
  | cons e rest ih =>
    by_cases h : e.status ∈ sent
    · simp [drainEvents, h, ih]
    · simp [drainEvents, h, ih]

lemma drainEvents_all_sent (sent : List OrderStatus) (l : List OrderEvent)
    (h : ∀ e ∈ l, e.status ∈ sent) : drainEvents sent l = ([], sent) := by
  induction l with
  | nil => rfl
  | cons e rest ih =>
    have he : e.status ∈ sent := h e (by simp)
    simp only [drainEvents, if_pos he]
    exact ih (fun e' he' => h e' (by simp [he']))

lemma drainEvents_fresh (sent : List OrderStatus) (l : List OrderEvent)
    (hnd : (l.map (fun e => e.status)).Nodup) (hdisj : ∀ e ∈ l, e.status ∉ sent) :
    drainEvents sent l = (l, sent ++ l.map (fun e => e.status)) := by
  induction l generalizing sent with
  | nil => simp [drainEvents]
  | cons e rest ih =>
    have he : e.status ∉ sent := hdisj e (by simp)
    rw [List.map_cons, List.nodup_cons] at hnd
    obtain ⟨hhead, htail⟩ := hnd
    have hdisj' : ∀ e' ∈ rest, e'.status ∉ sent ++ [e.status] := by
      intro e' he'
      simp only [List.mem_append, List.mem_singleton]
      rintro (hin | heq)
      · exact hdisj e' (by simp [he']) hin
      · exact hhead (heq ▸ List.mem_map_of_mem (fun x => x.status) he')
    simp [drainEvents, he, ih (sent ++ [e.status]) htail hdisj']

/-- Core bookkeeping of the `sent` set: delivered statuses are distinct, were
not in `sent` before, end up in the final `sent`, and `sent` only grows. -/
lemma drainEvents_spec (sent : List OrderStatus) (l : List OrderEvent) :
    (((drainEvents sent l).1.map (fun e => e.status)).Nodup) ∧
    (∀ st, st ∈ (drainEvents sent l).1.map (fun e => e.status) →
      st ∉ sent ∧ st ∈ (drainEvents sent l).2) ∧
    (∀ x ∈ sent, x ∈ (drainEvents sent l).2) := by
  induction l generalizing sent with
  | nil => simp [drainEvents]
  | cons e rest ih =>
    by_cases h : e.status ∈ sent
    · simpa [drainEvents, h] using ih sent
    · obtain ⟨ih1, ih2, ih3⟩ := ih (sent ++ [e.status])
      refine ⟨?_, ?_, ?_⟩
      · simp only [drainEvents, if_neg h, List.map_cons, List.nodup_cons]
        refine ⟨fun hin => ?_, ih1⟩
        exact (ih2 e.status hin).1 (by simp)
      · intro st hst
        simp only [drainEvents, if_neg h, List.map_cons, List.mem_cons] at hst
        rcases hst with rfl | hst
        · refine ⟨h, ?_⟩
          simpa [drainEvents, if_neg h] using ih3 e.status (by simp)
        · have h2 := ih2 st hst
          refine ⟨fun hin => h2.1 (by simp [hin]), ?_⟩
          simpa [drainEvents, if_neg h] using h2.2
      · intro x hx
        simpa [drainEvents, if_neg h] using ih3 x (by simp [hx])

lemma nodup_take_drop_disjoint (L : List OrderStatus) (hnd : L.Nodup) (k : Nat) :
    ∀ st ∈ L.drop k, st ∉ L.take k := by
  have hnd2 : (L.take k ++ L.drop k).Nodup := by
    rw [List.take_append_drop]; exact hnd
  have hdisj := (List.nodup_append.mp hnd2).2.2
  intro st hst hmem
  exact hdisj hmem hst

/-- The sent-set discipline alone guarantees no status is ever delivered twice
on one connection, whatever the backlog, buffered and live inputs are. -/
lemma deliverConnection_nodup (backlog buffered live : List OrderEvent) :
    ((deliverConnection backlog buffered live).map (fun e => e.status)).Nodup := by
  obtain ⟨h11, h12, h13⟩ := drainEvents_spec [] (sortByLifecycle backlog)
  obtain ⟨h21, h22, h23⟩ := drainEvents_spec
    (drainEvents [] (sortByLifecycle backlog)).2 (sortByLifecycle buffered)
  obtain ⟨h31, h32, h33⟩ := drainEvents_spec
    (drainEvents (drainEvents [] (sortByLifecycle backlog)).2 (sortByLifecycle buffered)).2 live
  simp only [deliverConnection, List.map_append]
  rw [List.nodup_append, List.nodup_append]
  refine ⟨⟨h11, h21, ?_⟩, h31, ?_⟩
  · intro st hst1 hst2
    exact (h22 st hst2).1 ((h12 st hst1).2)
  · intro st hst12 hst3
    rw [List.mem_append] at hst12
    rcases hst12 with hst1 | hst2
    · exact (h32 st hst3).1 (h23 st ((h12 st hst1).2))
    · exact (h32 st hst3).1 ((h22 st hst2).2)

/-- Delivery replays the full emission sequence: if the order's events were
emitted in strictly increasing lifecycle rank, a connection whose backlog is a
store snapshot (`take nb`), whose buffer holds the events published between
subscription and flush (`drop ns` of `take nf`), and whose live feed is the
remainder (`drop nf`), delivers exactly the emission sequence.  The
constraints `ns ≤ nb`, `ns ≤ nf` hold by construction: the bus subscription is
taken before the backlog read and before the flush. -/
lemma deliverConnection_replays (E : List OrderEvent) (ns nb nf : Nat)
    (h1 : ns ≤ nb) (h2 : ns ≤ nf)
    (hPW : E.Pairwise (fun a b => statusRank a.status < statusRank b.status)) :
    deliverConnection (E.take nb) ((E.take nf).drop ns) (E.drop nf) = E := by
  have hND : (E.map (fun e => e.status)).Nodup := by
    refine List.pairwise_map.mpr (hPW.imp ?_)
    intro a b hlt heq
    rw [heq] at hlt
    exact lt_irrefl _ hlt
  have hPWle : ∀ (l : List OrderEvent), l.Sublist E →
      l.Pairwise (fun a b => statusRank a.status ≤ statusRank b.status) :=
    fun l hs => (hPW.sublist hs).imp (fun h => le_of_lt h)
  have hUsub : ((E.take nf).drop ns).Sublist E :=
    (List.drop_sublist ns (E.take nf)).trans (List.take_sublist nf E)
  have hsortB : sortByLifecycle (E.take nb) = E.take nb :=
    sortByLifecycle_eq_self _ (hPWle _ (List.take_sublist nb E))
  have hsortU : sortByLifecycle ((E.take nf).drop ns) = (E.take nf).drop ns :=
    sortByLifecycle_eq_self _ (hPWle _ hUsub)
  have hd1 : drainEvents [] (E.take nb) =
      (E.take nb, [] ++ (E.take nb).map (fun e => e.status)) := by
    apply drainEvents_fresh
    · rw [List.map_take]
      exact hND.sublist (List.take_sublist nb _)
    · intro e _
      simp
  rcases le_or_lt nf nb with hc | hc
  · -- the backlog already covers everything buffered
    have hUss : ((E.take nf).drop ns).Sublist (E.take nb) := by
      have ha : E.take nf = (E.take nb).take nf := by
        rw [List.take_take, Nat.min_eq_left hc]
      exact (List.drop_sublist ns (E.take nf)).trans (ha ▸ List.take_sublist nf (E.take nb))
    have hd2 : drainEvents ([] ++ (E.take nb).map (fun e => e.status)) ((E.take nf).drop ns) =
        ([], [] ++ (E.take nb).map (fun e => e.status)) := by
      apply drainEvents_all_sent
      intro e he
      simp only [List.nil_append]
      exact List.mem_map_of_mem _ (hUss.subset he)
    have hVsplit : E.drop nf = (E.take nb).drop nf ++ E.drop nb := by
      rw [List.drop_take]
      have hdd : E.drop nb = (E.drop nf).drop (nb - nf) := by
        rw [List.drop_drop]
        congr 1
        omega
      rw [hdd]
      exact (List.take_append_drop (nb - nf) (E.drop nf)).symm
    have hallsent3 : drainEvents ([] ++ (E.take nb).map (fun e => e.status)) ((E.take nb).drop nf) =
        ([], [] ++ (E.take nb).map (fun e => e.status)) := by
      apply drainEvents_all_sent
      intro e he
      simp only [List.nil_append]
      exact List.mem_map_of_mem _ ((List.drop_sublist nf (E.take nb)).subset he)
    have hfresh3 : drainEvents ([] ++ (E.take nb).map (fun e => e.status)) (E.drop nb) =
        (E.drop nb, ([] ++ (E.take nb).map (fun e => e.status)) ++
          (E.drop nb).map (fun e => e.status)) := by
      apply drainEvents_fresh
      · rw [List.map_drop]
        exact hND.sublist (List.drop_sublist nb _)
      · intro e he
        simp only [List.nil_append, List.map_take]
        have hmem : e.status ∈ (E.map (fun e => e.status)).drop nb := by
          rw [← List.map_drop]
          exact List.mem_map_of_mem _ he
        exact nodup_take_drop_disjoint _ hND nb e.status hmem
    simp only [deliverConnection, hsortB, hsortU, hd1, hd2, hVsplit, drainEvents_append,
      hallsent3, hfresh3]
    simp
  · -- the buffer extends past the backlog
    have hd1' : drainEvents [] (E.take nb) =
        (E.take nb, (E.take nb).map (fun e => e.status)) := by
      simpa using hd1
    have hUsplit : (E.take nf).drop ns = (E.take nb).drop ns ++ (E.take nf).drop nb := by
      have e1 : nf - ns = (nb - ns) + (nf - nb) := by omega
      rw [List.drop_take, List.drop_take, List.drop_take, e1, List.take_add]
      congr 1
      rw [List.drop_drop]
      congr 2
      omega
    have hjoin : E.take nb ++ (E.take nf).drop nb = E.take nf := by
      have htt : E.take nb = (E.take nf).take nb := by
        rw [List.take_take, Nat.min_eq_left (le_of_lt hc)]
      rw [htt]
      exact List.take_append_drop nb (E.take nf)
    have hallsent2 : drainEvents ((E.take nb).map (fun e => e.status)) ((E.take nb).drop ns) =
        ([], (E.take nb).map (fun e => e.status)) := by
      apply drainEvents_all_sent
      intro e he
      exact List.mem_map_of_mem _ ((List.drop_sublist ns (E.take nb)).subset he)
    have hndTakeNf : ((E.take nf).map (fun e => e.status)).Nodup := by
      rw [List.map_take]
      exact hND.sublist (List.take_sublist nf _)
    have hfresh2 : drainEvents ((E.take nb).map (fun e => e.status)) ((E.take nf).drop nb) =
        ((E.take nf).drop nb, (E.take nb).map (fun e => e.status) ++
          ((E.take nf).drop nb).map (fun e => e.status)) := by
      apply drainEvents_fresh
      · rw [List.map_drop]
        exact hndTakeNf.sublist (List.drop_sublist nb _)
      · intro e he
        have hmem : e.status ∈ ((E.take nf).map (fun e => e.status)).drop nb := by
          rw [← List.map_drop]
          exact List.mem_map_of_mem _ he
        have hnot := nodup_take_drop_disjoint _ hndTakeNf nb e.status hmem
        intro hin
        apply hnot
        have hBinNf : (E.take nb).map (fun e => e.status) =
            ((E.take nf).map (fun e => e.status)).take nb := by
          rw [List.map_take, List.map_take, List.take_take, Nat.min_eq_left (le_of_lt hc)]
        rw [← hBinNf]
        exact hin
    have hmapJoin : (E.take nf).map (fun e => e.status) =
        (E.take nb).map (fun e => e.status) ++ ((E.take nf).drop nb).map (fun e => e.status) := by
      rw [← List.map_append, hjoin]
    have hsent3 : ∀ st ∈ (E.take nb).map (fun e => e.status) ++
        ((E.take nf).drop nb).map (fun e => e.status), st ∈ (E.map (fun e => e.status)).take nf := by
      intro st hst
      rw [← List.map_take, hmapJoin]
      exact hst
    have hfresh3 : drainEvents ((E.take nb).map (fun e => e.status) ++
          ((E.take nf).drop nb).map (fun e => e.status)) (E.drop nf) =
        (E.drop nf, ((E.take nb).map (fun e => e.status) ++
          ((E.take nf).drop nb).map (fun e => e.status)) ++
          (E.drop nf).map (fun e => e.status)) := by
      apply drainEvents_fresh
      · rw [List.map_drop]
        exact hND.sublist (List.drop_sublist nf _)
      · intro e he hin
        have hmem : e.status ∈ (E.map (fun e => e.status)).drop nf := by
          rw [← List.map_drop]
          exact List.mem_map_of_mem _ he
        exact nodup_take_drop_disjoint _ hND nf e.status hmem (hsent3 _ hin)
    simp only [deliverConnection]
    rw [hsortB, hsortU, hd1']
    dsimp only
    rw [hUsplit, drainEvents_append, hallsent2]
    dsimp only
    rw [hfresh2]
    dsimp only
    rw [hfresh3]
    dsimp only
    rw [List.nil_append, hjoin]
    exact List.take_append_drop nf E

lemma canonicalSeqs_rank_lt :
    ∀ l ∈ canonicalSeqs, l.Pairwise (fun a b => statusRank a < statusRank b) := by
  decide

/-- C1: on any connection, the `sent` set guarantees no status is ever
delivered twice, for arbitrary backlog/buffered/live inputs; and whenever the
order's emission sequence `E` is one of the canonical lifecycle sequences, a
connection joining at any point (backlog snapshot `take nb`, events buffered
between subscribe and flush `drop ns (take nf)`, live tail `drop nf`, with
`ns ≤ nb` and `ns ≤ nf` by the subscribe-before-backlog-read protocol)
delivers exactly `E` — so the delivered status sequence is itself the same
canonical prefix, with no duplicate and no misordering. -/
theorem subscriber_delivery_canonical :
    (∀ backlog buffered live : List OrderEvent,
      ((deliverConnection backlog buffered live).map (fun e => e.status)).Nodup) ∧
    (∀ (E : List OrderEvent) (ns nb nf : Nat), ns ≤ nb → ns ≤ nf →
      E.map (fun e => e.status) ∈ canonicalSeqs →
      deliverConnection (E.take nb) ((E.take nf).drop ns) (E.drop nf) = E ∧
      (deliverConnection (E.take nb) ((E.take nf).drop ns) (E.drop nf)).map
        (fun e => e.status) ∈ canonicalSeqs) := by
  refine ⟨deliverConnection_nodup, ?_⟩
  intro E ns nb nf h1 h2 hcan
  have hPW : E.Pairwise (fun a b => statusRank a.status < statusRank b.status) := by
    have h := canonicalSeqs_rank_lt _ hcan
    rw [List.pairwise_map] at h
    exact h
  have heq := deliverConnection_replays E ns nb nf h1 h2 hPW
  exact ⟨heq, by rw [heq]; exact hcan⟩

def fullLifecycleEvents : List OrderEvent :=
  [OrderEvent.mk "order-1" .pending 1 none none none none,
   OrderEvent.mk "order-1" .routing 2 none none none none,
   OrderEvent.mk "order-1" .building 3 none none none none,
   OrderEvent.mk "order-1" .submitted 4 none none none none,
   OrderEvent.mk "order-1" .confirmed 5 (some .raydium) (some 2) (some "mocktx_a") none]

/-- Witness for C1: a subscriber that joins mid-execution (backlog of 2
events, one event buffered during the backlog read, live tail from the third
event on) still receives the complete canonical sequence exactly once. -/
theorem subscriber_delivery_canonical_witness :
    1 ≤ 2 ∧ 1 ≤ 3 ∧
    fullLifecycleEvents.map (fun e => e.status) ∈ canonicalSeqs ∧
    (deliverConnection (fullLifecycleEvents.take 2) ((fullLifecycleEvents.take 3).drop 1)
        (fullLifecycleEvents.drop 3) = fullLifecycleEvents ∧
      (deliverConnection (fullLifecycleEvents.take 2) ((fullLifecycleEvents.take 3).drop 1)
        (fullLifecycleEvents.drop 3)).map (fun e => e.status) ∈ canonicalSeqs) := by
  have hm : fullLifecycleEvents.map (fun e => e.status) ∈ canonicalSeqs := by decide
  exact ⟨by decide, by decide, hm,
    subscriber_delivery_canonical.2 fullLifecycleEvents 1 2 3 (by decide) (by decide) hm⟩

/-! ## C9 — in-memory vs Redis-pub/sub event bus equivalence

Both buses (src/services/orderService.ts) are modelled as state machines
driven by a list of operations; the observable output is the sequence of
`(handler, event)` invocations.  Handlers are identified by numbers; the JS
`Map`/`Set` pair is modelled as a shadowing association list of
insertion-ordered handler lists, and the Redis pub/sub channel as the set of
channel names the subscriber connection is subscribed to (a published message
reaches the connection exactly when its channel is subscribed, and
`JSON.stringify`/`JSON.parse` round-trip the event unchanged). -/

inductive BusOp where
  | subscribe (orderId : String) (handler : Nat)
  | publish (orderId : String) (ev : OrderEvent)
  | unsubscribe (orderId : String) (handler : Nat)
  | close
deriving DecidableEq, Repr

def handlersFor (m : List (String × List Nat)) (k : String) : List Nat :=
  match m.find? (fun p => p.1 == k) with
  | some p => p.2
  | none => []

def setHandlers (m : List (String × List Nat)) (k : String) (v : List Nat) :
    List (String × List Nat) :=
  (k, v) :: m

/-- `handlers.get(orderId) ?? new Set(); set.add(onEvent); handlers.set(orderId, set)`. -/
def addHandler (m : List (String × List Nat)) (k : String) (hid : Nat) :
    List (String × List Nat) :=
  setHandlers m k (if hid ∈ handlersFor m k then handlersFor m k else handlersFor m k ++ [hid])

/-- One step of `InMemoryEventBus`: publish fans out to the current handlers
of the order (none when the entry is absent), subscribe registers, the
returned unsubscribe closure deletes the handler if the entry exists, and
`close` clears the whole map. -/
def memStep (m : List (String × List Nat)) : BusOp → List (String × List Nat) × List (Nat × OrderEvent)
  | .subscribe k hid => (addHandler m k hid, [])
  | .publish k ev => (m, (handlersFor m k).map (fun hid => (hid, ev)))
  | .unsubscribe k hid =>
    match m.find? (fun p => p.1 == k) with
    | none => (m, [])
    | some _ => (setHandlers m k ((handlersFor m k).filter (fun x => x != hid)), [])
  | .close => ([], [])

def memRun (m : List (String × List Nat)) : List BusOp → List (Nat × OrderEvent)
  | [] => []
  | op :: ops => (memStep m op).2 ++ memRun (memStep m op).1 ops

/-- The channel name used by `RedisPubSubEventBus.channel`. -/
def orderEventsChannel (orderId : String) : String :=
  "order-events:" ++ orderId

/-- The message listener's `channel.replace(/^order-events:/, '')`. -/
def channelOrderId (c : String) : String :=
  if "order-events:".data.isPrefixOf c.data then String.mk (c.data.drop 13) else c

structure RedisBusState where
  handlers : List (String × List Nat)
  channels : List String
deriving DecidableEq, Repr

/-- One step of `RedisPubSubEventBus` over a faithful model of the pub/sub
channel: `subscribe` registers the handler and subscribes the connection to
the order's channel when it had no handlers; `publish` sends on the channel,
and the connection's message listener (when subscribed) dispatches to the
handlers of the orderId parsed back out of the channel name; `unsubscribe`
deletes the handler and drops the channel subscription when the set empties;
`close` drops everything (a quit connection receives nothing). -/
def redisStep (s : RedisBusState) : BusOp → RedisBusState × List (Nat × OrderEvent)
  | .subscribe k hid =>
    let wasEmpty := (handlersFor s.handlers k).isEmpty
    ({ handlers := addHandler s.handlers k hid,
       channels := if wasEmpty then s.channels ++ [orderEventsChannel k] else s.channels }, [])
  | .publish k ev =>
    if orderEventsChannel k ∈ s.channels then
      (s, (handlersFor s.handlers (channelOrderId (orderEventsChannel k))).map (fun hid => (hid, ev)))
    else (s, [])
  | .unsubscribe k hid =>
    match s.handlers.find? (fun p => p.1 == k) with
    | none => (s, [])
    | some _ =>
      let rest := (handlersFor s.handlers k).filter (fun x => x != hid)
      ({ handlers := setHandlers s.handlers k rest,
         channels := if rest.isEmpty then s.channels.filter (fun c => c != orderEventsChannel k)
           else s.channels }, [])
  | .close => ({ handlers := [], channels := [] }, [])

def redisRun (s : RedisBusState) : List BusOp → List (Nat × OrderEvent)
  | [] => []
  | op :: ops => (redisStep s op).2 ++ redisRun (redisStep s op).1 ops

/-- Well-formed operation sequences: `close()` invalidates all further calls
(per the bus contract), so it may only appear as the final operation. -/
def noMidClose : List BusOp → Bool
  | [] => true
  | .close :: rest => rest.isEmpty
  | _ :: rest => noMidClose rest

lemma isPrefixOf_append_self (l₁ l₂ : List Char) : l₁.isPrefixOf (l₁ ++ l₂) = true := by
  induction l₁ with
  | nil => simp [List.isPrefixOf]
  | cons a as ih => simp [List.isPrefixOf, ih]

/-- Stripping the channel name round-trips the order identifier. -/
lemma channelOrderId_orderEventsChannel (k : String) :
    channelOrderId (orderEventsChannel k) = k := by
  unfold channelOrderId orderEventsChannel
  have hdata : ("order-events:" ++ k).data = "order-events:".data ++ k.data :=
    String.data_append _ _
  have hpre : ("order-events:".data).isPrefixOf (("order-events:" ++ k).data) = true := by
    rw [hdata]
    exact isPrefixOf_append_self _ _
  rw [if_pos hpre, hdata]
  have hlen : (13 : Nat) = "order-events:".data.length := by decide
  rw [hlen, List.drop_left]

lemma orderEventsChannel_inj {a b : String}
    (h : orderEventsChannel a = orderEventsChannel b) : a = b := by
  have hd : ("order-events:" ++ a).data = ("order-events:" ++ b).data :=
    congrArg String.data h
  rw [String.data_append, String.data_append] at hd
  have hab : a.data = b.data := List.append_cancel_left hd
  calc a = String.mk a.data := rfl
    _ = String.mk b.data := by rw [hab]
    _ = b := rfl

lemma handlersFor_setHandlers (m : List (String × List Nat)) (k : String) (v : List Nat)
    (k' : String) :
    handlersFor (setHandlers m k v) k' = if k = k' then v else handlersFor m k' := by
  by_cases h : k = k'
  · subst h
    simp [setHandlers, handlersFor, List.find?]
  · have hb : (k == k') = false := by simp [h]
    simp [setHandlers, handlersFor, List.find?, hb, h]

lemma handlersFor_addHandler_ne (m : List (String × List Nat)) (k : String) (hid : Nat)
    (k' : String) (h : k ≠ k') :
    handlersFor (addHandler m k hid) k' = handlersFor m k' := by
  simp [addHandler, handlersFor_setHandlers, h]

lemma handlersFor_addHandler_self (m : List (String × List Nat)) (k : String) (hid : Nat) :
    handlersFor (addHandler m k hid) k ≠ [] := by
  rw [addHandler, handlersFor_setHandlers, if_pos rfl]
  by_cases hmem : hid ∈ handlersFor m k
  · rw [if_pos hmem]
    intro hnil
    rw [hnil] at hmem
    simp at hmem
  · rw [if_neg hmem]
    simp

/-- Step-indexed agreement: from states related by "same handler map, channel
subscribed exactly for orders with a nonempty handler set", both buses emit
identical delivery sequences on any well-formed operation sequence. -/
lemma busRun_agree :
    ∀ (ops : List BusOp) (m : List (String × List Nat)) (rs : RedisBusState),
      rs.handlers = m →
      (∀ k, orderEventsChannel k ∈ rs.channels ↔ handlersFor m k ≠ []) →
      noMidClose ops = true →
      memRun m ops = redisRun rs ops := by
  intro ops
  induction ops with
  | nil => intro m rs _ _ _; rfl
  | cons op rest ih =>
    intro m rs hh hch hnmc
    cases op with
    | subscribe k hid =>
      have hnmc' : noMidClose rest = true := by simpa [noMidClose] using hnmc
      simp only [memRun, redisRun, memStep, redisStep, hh, List.nil_append]
      apply ih
      · rfl
      · intro k'
        by_cases hkk : k = k'
        · subst hkk
          constructor
          · intro _
            exact handlersFor_addHandler_self m k hid
          · intro _
            by_cases hw : (handlersFor m k).isEmpty = true
            · rw [if_pos hw]
              simp
            · rw [if_neg hw]
              refine (hch k).mpr ?_
              intro hnil
              apply hw
              rw [hnil]
              rfl
        · rw [handlersFor_addHandler_ne m k hid k' hkk]
          by_cases hw : (handlersFor m k).isEmpty = true
          · rw [if_pos hw]
            simp only [List.mem_append, List.mem_singleton]
            constructor
            · rintro (hin | heq)
              · exact (hch k').mp hin
              · exact absurd (orderEventsChannel_inj heq).symm hkk
            · intro hne
              exact Or.inl ((hch k').mpr hne)
          · rw [if_neg hw]
            exact hch k'
      · exact hnmc'
    | publish k ev =>
      have hnmc' : noMidClose rest = true := by simpa [noMidClose] using hnmc
      simp only [memRun, redisRun, memStep, redisStep, hh, channelOrderId_orderEventsChannel]
      by_cases hin : orderEventsChannel k ∈ rs.channels
      · rw [if_pos hin]
        rw [ih m rs hh hch hnmc']
      · rw [if_neg hin]
        have hempty : handlersFor m k = [] := by
          by_contra hne
          exact hin ((hch k).mpr hne)
        rw [hempty]
        simp only [List.map_nil, List.nil_append]
        exact ih m rs hh hch hnmc'
    | unsubscribe k hid =>
      have hnmc' : noMidClose rest = true := by simpa [noMidClose] using hnmc
      simp only [memRun, redisRun, memStep, redisStep, hh]
      cases hfind : m.find? (fun p => p.1 == k) with
      | none =>
        simp only [hfind, List.nil_append]
        exact ih m rs hh hch hnmc'
      | some p =>
        simp only [hfind, List.nil_append]
        apply ih
        · rfl
        · intro k'
          by_cases hkk : k = k'
          · subst hkk
            rw [handlersFor_setHandlers, if_pos rfl]
            by_cases hrest : ((handlersFor m k).filter (fun x => x != hid)).isEmpty = true
            · rw [if_pos hrest]
              have hz : (handlersFor m k).filter (fun x => x != hid) = [] :=
                List.isEmpty_iff.mp hrest
              rw [hz]
              simp [List.mem_filter]
            · rw [if_neg hrest]
              have hrest' : (handlersFor m k).filter (fun x => x != hid) ≠ [] := by
                intro hx
                apply hrest
                rw [hx]
                rfl
              have hcur : handlersFor m k ≠ [] := by
                intro hnil
                apply hrest'
                rw [hnil]
                rfl
              constructor
              · intro _
                exact hrest'
              · intro _
                exact (hch k).mpr hcur
          · rw [handlersFor_setHandlers, if_neg hkk]
            by_cases hrest : ((handlersFor m k).filter (fun x => x != hid)).isEmpty = true
            · rw [if_pos hrest]
              simp only [List.mem_filter]
              constructor
              · rintro ⟨hin, _⟩
                exact (hch k').mp hin
              · intro hne
                refine ⟨(hch k').mpr hne, ?_⟩
                have hne2 : orderEventsChannel k' ≠ orderEventsChannel k :=
                  fun he => hkk (orderEventsChannel_inj he).symm
                simpa using hne2
            · rw [if_neg hrest]
              exact hch k'
        · exact hnmc'
    | close =>
      have hrest : rest = [] := by
        cases rest with
        | nil => rfl
        | cons x xs => simp [noMidClose] at hnmc
      subst hrest
      simp [memRun, redisRun, memStep, redisStep]

/-- C9: `InMemoryEventBus` and `RedisPubSubEventBus` (the latter over a
faithful pub/sub channel model) are observationally equivalent: starting from
fresh buses, the same sequence of subscribe/publish/unsubscribe/close
operations (with `close`, which invalidates further calls, only last) makes
every subscriber's handler receive the same sequence of events. -/
theorem eventBus_observational_equivalence (ops : List BusOp)
    (h : noMidClose ops = true) :
    memRun [] ops = redisRun { handlers := [], channels := [] } ops :=
  busRun_agree ops [] { handlers := [], channels := [] } rfl
    (by intro k; simp [handlersFor]) h

def sampleBusOps : List BusOp :=
  [.subscribe "order-1" 1, .publish "order-1" pendingSampleEvent,
   .subscribe "order-1" 2, .publish "order-1" routingSampleEvent,
   .unsubscribe "order-1" 1, .publish "order-2" pendingSampleEvent,
   .publish "order-1" routingSampleEvent, .close]

/-- Witness for C9 on a concrete operation sequence exercising fan-out,
late subscription, unsubscription, a topic with no subscribers and close. -/
theorem eventBus_observational_equivalence_witness :
    noMidClose sampleBusOps = true ∧
    memRun [] sampleBusOps = redisRun { handlers := [], channels := [] } sampleBusOps := by
  exact ⟨by decide, eventBus_observational_equivalence sampleBusOps (by decide)⟩
